import Mathlib

/- Verification of the segmentation post-processing pipeline of this repository
   (aerial-imagery semantic segmentation with smooth tiled prediction).

   Shallow embedding of the relevant parts of
   `src/229_prediction_aerial_imagery_using_smooth_blending.py` and `src/app.py`:

   * `generate_binary_mask` : the 0/255 binary mask generator (both files);
   * `skLabelRegions`       : connected-component labeling of a byte mask, as
     performed by `skimage.measure.label` + `regionprops` (foreground = nonzero
     pixels, background = 0; connectivity 4 or 8, skimage default for 2D = 8);
     modelled as the standard incremental merge of adjacent regions, which
     computes the same partition into maximal connected components;
   * `conversion_factor`, `realArea`, `areaEntriesFor`, `areaLoopEntries` : the
     pixel-count / real-area aggregation and the per-label report loop;
   * `postprocess_mask`     : per-class morphological cleanup dispatch (app.py);
     the cv2 morphological operations live in the cv2 library and are abstracted as
     function parameters;
   * `patchwise_prediction` : the non-overlapping patch-wise baseline predictor
     (crop to multiples of the patch size, per-patch MinMax rescale, inference,
     argmax, unpatchify); the keras model is the inference collaborator,
     abstracted as a function parameter;
   * `smoothInput`          : the single whole-image MinMax rescale performed
     before `predict_img_with_smooth_windowing`.

   Images, masks and label maps are embedded as functions `Nat → Nat → _`
   (row, column), with explicit height/width bounds where a claim needs them.
   `MinMaxScaler.fit_transform` is per-column (per-channel) min-max rescaling
   of the data it is given; `fit_transform` refits on each call, so it is a
   pure function of its input. Python's float 0.25 is the exact rational 1/4,
   and the aggregation arithmetic is exact, so ℚ is a faithful carrier. -/

/- Conversion factor: `conversion_factor = 0.25` in the script,
   `CONVERSION_FACTOR = 0.25` in app.py. 1 pixel = 0.25 square meters. -/
def conversion_factor : ℚ := 1/4

/- `generate_binary_mask(segmentation, target_label)`:
   `(segmentation == target_label).astype(np.uint8) * 255`. -/
def generate_binary_mask (seg : Nat → Nat → Nat) (target : Nat) : Nat → Nat → Nat :=
  fun r c => if seg r c = target then 255 else 0

/- Pixel adjacency. skimage `connectivity=1` is 4-adjacency (edge neighbours),
   `connectivity=2` (the 2D default used by `sk_label(binary_mask)`) is
   8-adjacency (edge or corner neighbours). -/
def adjacentB (conn : Nat) (p q : Nat × Nat) : Bool :=
  let dr := ((p.1 : Int) - (q.1 : Int)).natAbs
  let dc := ((p.2 : Int) - (q.2 : Int)).natAbs
  if conn = 4 then dr + dc == 1 else max dr dc == 1

/- A region touches pixel `p` when it holds a pixel adjacent to `p`. -/
def touches (conn : Nat) (p : Nat × Nat) (reg : List (Nat × Nat)) : Bool :=
  reg.any (fun q => adjacentB conn p q)

/- One step of incremental connected-component construction: pixel `p` is
   merged with every existing region adjacent to it. -/
def insertPixel (conn : Nat) (p : Nat × Nat) (regs : List (List (Nat × Nat))) :
    List (List (Nat × Nat)) :=
  (p :: (regs.filter (touches conn p)).flatten) ::
    regs.filter (fun reg => ! touches conn p reg)

/- Row-major list of foreground pixel coordinates of a Boolean mask. -/
def foregroundList (H W : Nat) (fg : Nat → Nat → Bool) : List (Nat × Nat) :=
  (List.range H).flatMap
    (fun r => ((List.range W).filter (fun c => fg r c)).map (fun c => (r, c)))

/- Connected components (as pixel lists) of the foreground of a Boolean mask
   under the given connectivity. -/
def labelComponents (conn H W : Nat) (fg : Nat → Nat → Bool) :
    List (List (Nat × Nat)) :=
  (foregroundList H W fg).foldl (fun regs p => insertPixel conn p regs) []

/- `sk_label(binary_mask)` + `regionprops`: the components of the nonzero
   pixels of a byte mask (skimage background is 0). -/
def skLabelRegions (conn H W : Nat) (bmask : Nat → Nat → Nat) :
    List (List (Nat × Nat)) :=
  labelComponents conn H W (fun r c => bmask r c != 0)

/- `total_pixels`: running sum of `region.area` over all regions. -/
def totalPixels (regs : List (List (Nat × Nat))) : Nat :=
  (regs.map List.length).sum

/- Number of `true` pixels of a Boolean mask inside the H×W extent. -/
def countTrue (H W : Nat) (fg : Nat → Nat → Bool) : Nat :=
  ((List.range H).map (fun r => ((List.range W).filter (fun c => fg r c)).length)).sum

/- `np.sum(mask == 255)`: the number of 255-valued pixels of a byte mask. -/
def countPixels255 (H W : Nat) (bmask : Nat → Nat → Nat) : Nat :=
  countTrue H W (fun r c => bmask r c == 255)

/- `real_area = area_pixels * conversion_factor` (and likewise
   `total_real_area = total_pixels * conversion_factor`): plain multiplication. -/
def realArea (pixel_count : Nat) (factor : ℚ) : ℚ :=
  (pixel_count : ℚ) * factor

/- Per-object report lines: each region contributes its pixel count and its
   converted real area. -/
def areaEntriesFor (regions : List (List (Nat × Nat))) (factor : ℚ) :
    List (Nat × ℚ) :=
  regions.map (fun reg => (reg.length, realArea reg.length factor))

/- One printed per-class report block of the interactive area loop. -/
structure AreaEntry where
  label : Nat
  objectAreas : List (Nat × ℚ)
  total_pixels : Nat
  total_real_area : ℚ
deriving DecidableEq

/- `np.unique(final_prediction)`: the distinct labels present in the H×W label
   map (np.unique also sorts; only membership and iteration are used). -/
def uniqueLabels (H W : Nat) (pred : Nat → Nat → Nat) : List Nat :=
  ((List.range H).flatMap (fun r => (List.range W).map (fun c => pred r c))).dedup

/- The per-label area loop (script lines 208-227): labels not present in
   `unique_labels` are skipped with `continue`; for a present label the binary
   mask is generated, its connected components measured, and the totals
   reported. (When a present label had no regions the script would print
   "No objects found." instead of totals; it still raises no error.) -/
def areaLoopEntries (selected uniq : List Nat) (conn H W : Nat)
    (pred : Nat → Nat → Nat) : List AreaEntry :=
  selected.filterMap (fun l =>
    if l ∈ uniq then
      let regions := skLabelRegions conn H W (generate_binary_mask pred l)
      some { label := l
             objectAreas := areaEntriesFor regions conversion_factor
             total_pixels := totalPixels regions
             total_real_area := realArea (totalPixels regions) conversion_factor }
    else none)

/- `postprocess_mask(mask, label_id)` (app.py lines 53-60): morphological close
   for label 0 (Buildings), morphological open for label 4 (Water), otherwise
   the mask is returned unchanged. The cv2 morphology calls live outside this repository;
   they are abstracted as the parameters `close` and `open_`. -/
def postprocess_mask (close open_ : (Nat → Nat → Nat) → Nat → Nat → Nat)
    (mask : Nat → Nat → Nat) (label_id : Nat) : Nat → Nat → Nat :=
  if label_id = 0 then close mask
  else if label_id = 4 then open_ mask
  else mask

/- `SIZE_X = (img.shape[1] // patch_size) * patch_size` (same for Y): the
   cropped extent of the non-overlapping patch grid. -/
def cropSize (dim t : Nat) : Nat := (dim / t) * t

/- The (i, j) patch of size t of an image, in local coordinates. -/
def extractPatch (img : Nat → Nat → Nat → ℚ) (t i j : Nat) :
    Nat → Nat → Nat → ℚ :=
  fun r c ch => img (i * t + r) (j * t + c) ch

/- All values of channel `ch` inside a t×t patch, row-major: the column of the
   `reshape(-1, 3)` matrix handed to `MinMaxScaler.fit_transform`. -/
def channelVals (t : Nat) (patch : Nat → Nat → Nat → ℚ) (ch : Nat) : List ℚ :=
  (List.range t).flatMap (fun r => (List.range t).map (fun c => patch r c ch))

/- Minimum of a list of rationals (0 for the empty list, unused case). -/
def listMinQ : List ℚ → ℚ
  | [] => 0
  | x :: xs => xs.foldl min x

/- Maximum of a list of rationals (0 for the empty list, unused case). -/
def listMaxQ : List ℚ → ℚ
  | [] => 0
  | x :: xs => xs.foldl max x

/- `scaler.fit_transform(patch.reshape(-1, 3)).reshape(patch.shape)`:
   channel-wise min-max rescaling of a t×t patch by its own min/max
   (sklearn uses scale 1 when max = min, giving value x - min). -/
def normalizePatch (t : Nat) (patch : Nat → Nat → Nat → ℚ) :
    Nat → Nat → Nat → ℚ :=
  fun r c ch =>
    let mn := listMinQ (channelVals t patch ch)
    let mx := listMaxQ (channelVals t patch ch)
    if mx = mn then patch r c ch - mn else (patch r c ch - mn) / (mx - mn)

/- `np.argmax` over a class-score vector: index of the first maximum. -/
def argmaxList (l : List ℚ) : Nat :=
  match l with
  | [] => 0
  | x :: xs =>
      (xs.foldl
        (fun acc v =>
          if acc.2.1 < v then (acc.2.2, v, acc.2.2 + 1)
          else (acc.1, acc.2.1, acc.2.2 + 1))
        ((0 : Nat), x, (1 : Nat))).1

/- The label tile predicted for patch (i, j): normalize the patch, run the
   inference adapter, take the per-pixel argmax of the class scores. -/
def patchPred (infer : (Nat → Nat → Nat → ℚ) → Nat → Nat → List ℚ)
    (img : Nat → Nat → Nat → ℚ) (t i j : Nat) : Nat → Nat → Nat :=
  fun r c => argmaxList (infer (normalizePatch t (extractPatch img t i j)) r c)

/- The `patched_prediction` array reshaped to (nI, nJ, t, t): the row-major
   flat list of per-patch label tiles, indexed by patch coordinates. -/
def patchGridPreds (infer : (Nat → Nat → Nat → ℚ) → Nat → Nat → List ℚ)
    (img : Nat → Nat → Nat → ℚ) (t nI nJ : Nat) : List (List (Nat → Nat → Nat)) :=
  (List.range nI).map (fun i => (List.range nJ).map (fun j => patchPred infer img t i j))

/- `unpatchify` with step = patch size: output pixel (r, c) is read from the
   (r / t, c / t) tile at local coordinates (r % t, c % t). -/
def unpatchifyGrid (preds : List (List (Nat → Nat → Nat))) (t : Nat) :
    Nat → Nat → Nat :=
  fun r c => ((preds.getD (r / t) []).getD (c / t) (fun _ _ => 0)) (r % t) (c % t)

/- `patchwise_prediction(img, model)`: crop to multiples of the patch size
   (patchify of the cropped image yields H / t by W / t patches), predict each
   patch independently, stitch without blending. -/
def patchwise_prediction (infer : (Nat → Nat → Nat → ℚ) → Nat → Nat → List ℚ)
    (img : Nat → Nat → Nat → ℚ) (H W t : Nat) : Nat → Nat → Nat :=
  unpatchifyGrid (patchGridPreds infer img t (H / t) (W / t)) t

/- All values of channel `ch` of the whole H×W image, row-major: the column of
   the `img.reshape(-1, 3)` matrix. -/
def channelValsHW (H W : Nat) (img : Nat → Nat → Nat → ℚ) (ch : Nat) : List ℚ :=
  (List.range H).flatMap (fun r => (List.range W).map (fun c => img r c ch))

/- `input_img = scaler.fit_transform(img.reshape(-1, 3)).reshape(img.shape)`:
   the single whole-image min-max rescale performed before
   `predict_img_with_smooth_windowing` (script line 103, app.py line 83).
   Every pixel is rescaled by the global per-channel min/max of the image. -/
def smoothInput (H W : Nat) (img : Nat → Nat → Nat → ℚ) :
    Nat → Nat → Nat → ℚ :=
  fun r c ch =>
    let mn := listMinQ (channelValsHW H W img ch)
    let mx := listMaxQ (channelValsHW H W img ch)
    if mx = mn then img r c ch - mn else (img r c ch - mn) / (mx - mn)

/- Concrete 2×2 byte mask with foreground exactly at (0,0) and (1,1). -/
def diagMask : Nat → Nat → Nat :=
  fun r c => if (r = 0 ∧ c = 0) ∨ (r = 1 ∧ c = 1) then 255 else 0

/- Concrete 1×1 label map whose only label is 0. -/
def predA : Nat → Nat → Nat := fun _ _ => 0

/- The component regions of the class-0 mask of `predA`. -/
def regsA : List (List (Nat × Nat)) :=
  skLabelRegions 8 1 1 (generate_binary_mask predA 0)

/- The report entry produced for label 0 of `predA`. -/
def entryA : AreaEntry :=
  { label := 0
    objectAreas := areaEntriesFor regsA conversion_factor
    total_pixels := totalPixels regsA
    total_real_area := realArea (totalPixels regsA) conversion_factor }

/- Concrete 1×2 image (3 channels, channel-independent): pixel (0,0) has value
   1, pixel (0,1) has value 0. -/
def imgA : Nat → Nat → Nat → ℚ := fun _ c _ => if c = 0 then 1 else 0

/- Concrete 1×2 image agreeing with `imgA` at pixel (0,0) but with value 3 at
   pixel (0,1). -/
def imgC : Nat → Nat → Nat → ℚ := fun _ c _ => if c = 0 then 1 else 3

/- Concrete all-zero image used to exercise the patch-wise predictor. -/
def imgW6 : Nat → Nat → Nat → ℚ := fun _ _ _ => 0

/- Concrete inference adapter: constant class scores [0, 1]. -/
def inferW6 : (Nat → Nat → Nat → ℚ) → Nat → Nat → List ℚ := fun _ _ _ => [0, 1]

/- Concrete all-background 1×1 byte mask. -/
def zeroMask : Nat → Nat → Nat := fun _ _ => 0

/- Concrete mask transform used to instantiate `postprocess_mask`. -/
def maskW : Nat → Nat → Nat := fun _ _ => 255

-- Helper lemmas --------------------------------------------------------------

theorem totalPixels_filter_add (P : List (Nat × Nat) → Bool)
    (l : List (List (Nat × Nat))) :
    totalPixels (l.filter P) + totalPixels (l.filter (fun a => ! P a)) =
      totalPixels l := by
  induction l with
  | nil => rfl
  | cons a t ih =>
    by_cases h : P a <;>
      simp only [List.filter_cons, h, Bool.not_true, Bool.not_false, if_pos, if_neg,
        Bool.false_eq_true, not_false_eq_true, totalPixels, List.map_cons,
        List.sum_cons, ite_true, ite_false] <;>
      simp only [totalPixels] at ih <;> omega

theorem totalPixels_insertPixel (conn : Nat) (p : Nat × Nat)
    (regs : List (List (Nat × Nat))) :
    totalPixels (insertPixel conn p regs) = totalPixels regs + 1 := by
  have h := totalPixels_filter_add (touches conn p) regs
  simp only [totalPixels] at h ⊢
  simp only [insertPixel, List.map_cons, List.sum_cons, List.length_cons,
    List.length_flatten]
  omega

theorem totalPixels_foldl (conn : Nat) (l : List (Nat × Nat))
    (regs : List (List (Nat × Nat))) :
    totalPixels (l.foldl (fun rs p => insertPixel conn p rs) regs) =
      totalPixels regs + l.length := by
  induction l generalizing regs with
  | nil => simp
  | cons p t ih =>
    simp only [List.foldl_cons, List.length_cons, ih, totalPixels_insertPixel]
    omega

theorem foregroundList_length (H W : Nat) (fg : Nat → Nat → Bool) :
    (foregroundList H W fg).length = countTrue H W fg := by
  simp only [foregroundList, countTrue, List.length_flatMap, Function.comp_def,
    List.length_map]

-- C1 -------------------------------------------------------------------------

/-- C1: for every binary mask the pixel counts of the connected components
returned by the labeler sum exactly to the number of foreground pixels: in
general for any Boolean mask and any connectivity, and in particular for the
0/255 masks built by `generate_binary_mask`, where the per-class total pixel
count of the area aggregation equals the count of 255-valued pixels of that
class's mask. -/
theorem component_pixel_sum (conn H W : Nat) (fg : Nat → Nat → Bool)
    (seg : Nat → Nat → Nat) (target : Nat) :
    totalPixels (labelComponents conn H W fg) = countTrue H W fg ∧
    totalPixels (skLabelRegions conn H W (generate_binary_mask seg target)) =
      countPixels255 H W (generate_binary_mask seg target) := by
  have key : ∀ fg' : Nat → Nat → Bool,
      totalPixels (labelComponents conn H W fg') = countTrue H W fg' := by
    intro fg'
    rw [labelComponents, totalPixels_foldl, foregroundList_length]
    simp [totalPixels]
  refine ⟨key fg, ?_⟩
  rw [skLabelRegions, key]
  rw [countPixels255]
  congr 1
  funext r c
  by_cases h : seg r c = target <;> simp [generate_binary_mask, h]

-- C2 -------------------------------------------------------------------------

/-- C2: every reported converted area is the pixel count times the scale
factor, with no rounding inside the aggregation: the per-object report lines
carry exactly `pixel_count * factor`, the class total is exactly
`total_pixels * factor`, and a single component of 100 pixels with scale
factor 0.25 reports converted area 25. -/
theorem area_conversion_exact (regions : List (List (Nat × Nat))) (factor : ℚ) :
    areaEntriesFor regions factor =
      regions.map (fun reg => (reg.length, (reg.length : ℚ) * factor)) ∧
    realArea (totalPixels regions) factor = (totalPixels regions : ℚ) * factor ∧
    realArea 100 conversion_factor = 25 := by
  refine ⟨rfl, rfl, ?_⟩
  norm_num [realArea, conversion_factor]

-- C7 -------------------------------------------------------------------------

/-- C7: on the mask whose only foreground pixels are (0,0) and (1,1), the
connected-component labeler returns exactly one component of pixel count 2
under 8-connectivity (the skimage default used by the script) and two
components of pixel count 1 each under 4-connectivity. -/
theorem diag_pixels_components :
    (skLabelRegions 8 2 2 diagMask).map List.length = [2] ∧
    (skLabelRegions 4 2 2 diagMask).map List.length = [1, 1] := by
  decide

-- C8 -------------------------------------------------------------------------

/-- C8: the generated binary mask is 255 at a pixel exactly when the label map
equals the target class id there, 0 exactly when it does not, and takes no
value other than 0 and 255. -/
theorem binary_mask_values (seg : Nat → Nat → Nat) (target r c : Nat) :
    (generate_binary_mask seg target r c = 255 ↔ seg r c = target) ∧
    (generate_binary_mask seg target r c = 0 ↔ seg r c ≠ target) ∧
    (generate_binary_mask seg target r c = 0 ∨
      generate_binary_mask seg target r c = 255) := by
  by_cases h : seg r c = target <;> simp [generate_binary_mask, h]

-- C9 -------------------------------------------------------------------------

/-- C9: an all-background mask yields an empty component sequence from the
labeler (not an error), with total pixel count 0 and total converted area 0. -/
theorem empty_mask_report (conn H W : Nat) (bmask : Nat → Nat → Nat)
    (hempty : ∀ r c, r < H → c < W → bmask r c = 0) :
    skLabelRegions conn H W bmask = [] ∧
    totalPixels (skLabelRegions conn H W bmask) = 0 ∧
    realArea (totalPixels (skLabelRegions conn H W bmask)) conversion_factor = 0 := by
  have hfl : foregroundList H W (fun r c => bmask r c != 0) = [] := by
    apply List.eq_nil_of_length_eq_zero
    rw [foregroundList_length]
    apply List.sum_eq_zero
    intro x hx
    simp only [countTrue, List.mem_map, List.mem_range] at hx
    obtain ⟨r, hr, rfl⟩ := hx
    simp only [List.length_eq_zero]
    rw [List.filter_eq_nil_iff]
    intro c hc
    simp [hempty r c hr (List.mem_range.mp hc)]
  have hnil : skLabelRegions conn H W bmask = [] := by
    rw [skLabelRegions, labelComponents, hfl]
    rfl
  refine ⟨hnil, ?_, ?_⟩ <;> rw [hnil] <;> simp [totalPixels, realArea]

/-- Witness for C9 at the concrete all-zero 1×1 mask. -/
theorem empty_mask_report_witness :
    skLabelRegions 8 1 1 zeroMask = [] ∧
    totalPixels (skLabelRegions 8 1 1 zeroMask) = 0 ∧
    realArea (totalPixels (skLabelRegions 8 1 1 zeroMask)) conversion_factor = 0 :=
  empty_mask_report 8 1 1 zeroMask (fun _ _ _ _ => rfl)

-- C10 ------------------------------------------------------------------------

/-- C10: the per-class morphological post-processing is the identity for every
class id other than 0 (Building, morphological close) and 4 (Water,
morphological open): for any close/open operations and any mask, a label id
not in {0, 4} returns the mask unchanged. -/
theorem postprocess_identity (close open_ : (Nat → Nat → Nat) → Nat → Nat → Nat)
    (mask : Nat → Nat → Nat) (label_id : Nat)
    (h0 : label_id ≠ 0) (h4 : label_id ≠ 4) :
    postprocess_mask close open_ mask label_id = mask := by
  simp [postprocess_mask, h0, h4]

/-- Witness for C10 at label id 2 with the identity as both morphological
operations. -/
theorem postprocess_identity_witness :
    (2 : Nat) ≠ 0 ∧ (2 : Nat) ≠ 4 ∧
    postprocess_mask id id maskW 2 = maskW :=
  ⟨by decide, by decide, postprocess_identity id id maskW 2 (by decide) (by decide)⟩

-- C5 -------------------------------------------------------------------------

/-- C5 counterexample: the aggregation performs no scale-factor validation —
with a negative factor it still produces a report (a single 1-pixel component
reports area -1), and with factor 0 it reports area 0, instead of failing
before producing any report as the claim states. -/
theorem negative_factor_still_reports :
    areaEntriesFor [[(0, 0)]] (-1) = [(1, -1)] ∧ realArea 100 0 = 0 := by
  constructor
  · simp [areaEntriesFor, realArea]
  · simp [realArea]

/-- C5 amended: the deployed scale factor is the hard-coded constant 0.25,
which is positive; the aggregation itself performs no validation and computes
`pixel_count * factor` for every factor, including zero and negative ones. -/
theorem conversion_factor_constant :
    conversion_factor = 1/4 ∧ (0 : ℚ) < conversion_factor ∧
    ∀ (regions : List (List (Nat × Nat))) (factor : ℚ),
      areaEntriesFor regions factor =
        regions.map (fun reg => (reg.length, (reg.length : ℚ) * factor)) := by
  refine ⟨rfl, by norm_num [conversion_factor], fun regions factor => rfl⟩

-- C4 -------------------------------------------------------------------------

/-- C4 counterexample: selecting class id 3, which is absent from the 1×1 label
map `predA` (whose only label is 0), produces no report entry at all — the
per-label loop skips absent ids with `continue` — rather than the zero-area
entry the claim describes. -/
theorem absent_label_gives_no_entry :
    areaLoopEntries [3] (uniqueLabels 1 1 predA) 8 1 1 predA = [] := by
  decide

/-- C4 amended: a class id absent from the label map is skipped entirely — it
contributes no report entry (hence no components) and no error is raised (the
loop is a total function); every produced entry's label is present in the
map. -/
theorem area_loop_skips_absent (selected uniq : List Nat) (conn H W : Nat)
    (pred : Nat → Nat → Nat) (lbl : Nat) (e : AreaEntry)
    (habsent : lbl ∉ uniq)
    (he : e ∈ areaLoopEntries selected uniq conn H W pred) :
    e.label ∈ uniq ∧ e.label ≠ lbl := by
  obtain ⟨a, _, hfa⟩ := List.mem_filterMap.mp he
  by_cases h : a ∈ uniq
  · rw [if_pos h] at hfa
    injection hfa with hfa
    subst hfa
    exact ⟨h, fun heq => habsent (heq ▸ h)⟩
  · rw [if_neg h] at hfa
    exact absurd hfa (by simp)

/-- Witness for C4 at the concrete selection [0, 3] over the 1×1 label map
`predA`: label 3 is absent, and the single produced entry is for label 0. -/
theorem area_loop_skips_absent_witness :
    (3 ∉ uniqueLabels 1 1 predA) ∧
    entryA.label ∈ uniqueLabels 1 1 predA ∧ entryA.label ≠ 3 := by
  have h := area_loop_skips_absent [0, 3] (uniqueLabels 1 1 predA) 8 1 1 predA 3
    entryA (by decide) (List.Mem.head _)
  exact ⟨by decide, h.1, h.2⟩

-- C3 -------------------------------------------------------------------------

/-- C3 counterexample: the rescaling actually applied before the smooth-tiling
inference is a single whole-image min-max normalization; for the 1×2 images
`imgA` and `imgC`, which agree on the 1×1 tile at the origin (both have pixel
value 1 at (0,0) in every channel), the normalized values of that tile differ
(1 versus 0) because the scaling depends on the pixel outside the tile. -/
theorem smooth_scaling_not_pertile :
    imgA 0 0 = imgC 0 0 ∧
    smoothInput 1 2 imgA 0 0 0 ≠ smoothInput 1 2 imgC 0 0 0 := by
  have hA : smoothInput 1 2 imgA 0 0 0 = 1 := by
    norm_num [smoothInput, channelValsHW, imgA, listMinQ, listMaxQ,
      List.range_succ, min_def, max_def]
  have hC : smoothInput 1 2 imgC 0 0 0 = 0 := by
    norm_num [smoothInput, channelValsHW, imgC, listMinQ, listMaxQ,
      List.range_succ, min_def, max_def]
  refine ⟨rfl, ?_⟩
  rw [hA, hC]
  norm_num

/-- C3 amended: per-tile min-max normalization holds only on the patch-wise
baseline path, where each patch is rescaled by its own channel-wise min/max:
if two images agree on a patch region (all channels), the normalized patch
values agree at every in-patch pixel. The smooth-blending path instead
rescales the entire image once with global per-channel min/max before tiling,
so a tile's normalized values there depend on pixels outside the tile. -/
theorem patch_normalization_pertile (img1 img2 : Nat → Nat → Nat → ℚ)
    (t i j r c ch : Nat)
    (hagree : ∀ r' c' ch', r' < t → c' < t →
      img1 (i * t + r') (j * t + c') ch' = img2 (i * t + r') (j * t + c') ch')
    (hr : r < t) (hc : c < t) :
    normalizePatch t (extractPatch img1 t i j) r c ch =
      normalizePatch t (extractPatch img2 t i j) r c ch := by
  have hvals : channelVals t (extractPatch img1 t i j) ch =
      channelVals t (extractPatch img2 t i j) ch := by
    unfold channelVals
    rw [List.flatMap_def, List.flatMap_def]
    congr 1
    apply List.map_congr_left
    intro r' hr'
    apply List.map_congr_left
    intro c' hc'
    exact hagree r' c' ch (List.mem_range.mp hr') (List.mem_range.mp hc')
  have hval : extractPatch img1 t i j r c ch = extractPatch img2 t i j r c ch :=
    hagree r c ch hr hc
  simp only [normalizePatch, hvals, hval]

/-- Witness for C3 amended: `imgA` and `imgC` agree on the 1×1 patch at the
origin, so their normalized patch values agree there. -/
theorem patch_normalization_pertile_witness :
    normalizePatch 1 (extractPatch imgA 1 0 0) 0 0 0 =
      normalizePatch 1 (extractPatch imgC 1 0 0) 0 0 0 :=
  patch_normalization_pertile imgA imgC 1 0 0 0 0 0
    (fun _ c' _ _ hc => by
      have hc0 : c' = 0 := Nat.lt_one_iff.mp hc
      subst hc0
      rfl)
    (by decide) (by decide)

-- C6 -------------------------------------------------------------------------

theorem getD_range_map {α : Type _} (f : Nat → α) (d : α) (n i : Nat)
    (h : i < n) : ((List.range n).map f).getD i d = f i := by
  have hlen : i < ((List.range n).map f).length := by simpa using h
  rw [List.getD_eq_getElem _ _ hlen]
  simp

/-- C6: the non-overlapping baseline crops each dimension to the largest
multiple of the tile size not exceeding it (a total crop, not an error), and
at every pixel of the cropped region the stitched output equals the per-pixel
argmax of the inference result for the normalized contents of the tile
containing that pixel. -/
theorem patchwise_pred_structure
    (infer : (Nat → Nat → Nat → ℚ) → Nat → Nat → List ℚ)
    (img : Nat → Nat → Nat → ℚ) (H W t d m r c : Nat) (ht : 0 < t)
    (hm : t ∣ m) (hmd : m ≤ d) (hr : r < cropSize H t) (hc : c < cropSize W t) :
    (t ∣ cropSize d t ∧ cropSize d t ≤ d ∧ m ≤ cropSize d t) ∧
    patchwise_prediction infer img H W t r c =
      argmaxList (infer (normalizePatch t (extractPatch img t (r / t) (c / t)))
        (r % t) (c % t)) := by
  constructor
  · refine ⟨dvd_mul_left t (d / t), Nat.div_mul_le_self d t, ?_⟩
    obtain ⟨k, rfl⟩ := hm
    have hk : k ≤ d / t := (Nat.le_div_iff_mul_le ht).mpr (by rwa [mul_comm])
    calc t * k = k * t := mul_comm _ _
      _ ≤ (d / t) * t := Nat.mul_le_mul_right t hk
      _ = cropSize d t := rfl
  · have hrI : r / t < H / t := by
      rw [Nat.div_lt_iff_lt_mul ht]
      rw [cropSize] at hr
      exact hr
    have hcJ : c / t < W / t := by
      rw [Nat.div_lt_iff_lt_mul ht]
      rw [cropSize] at hc
      exact hc
    unfold patchwise_prediction unpatchifyGrid patchGridPreds
    rw [getD_range_map _ _ _ _ hrI, getD_range_map _ _ _ _ hcJ]
    rfl

/-- Witness for C6 at tile size 1 on a 1×1 image with a constant inference
adapter whose class scores are [0, 1]. -/
theorem patchwise_pred_structure_witness :
    0 < 1 ∧ (1 : Nat) ∣ 1 ∧ 1 ≤ 1 ∧ 0 < cropSize 1 1 ∧
    ((1 ∣ cropSize 1 1 ∧ cropSize 1 1 ≤ 1 ∧ 1 ≤ cropSize 1 1) ∧
      patchwise_prediction inferW6 imgW6 1 1 1 0 0 =
        argmaxList (inferW6 (normalizePatch 1 (extractPatch imgW6 1 (0 / 1) (0 / 1)))
          (0 % 1) (0 % 1))) :=
  ⟨by decide, by decide, by decide, by decide,
    patchwise_pred_structure inferW6 imgW6 1 1 1 1 1 0 0 (by decide) (by decide)
      (by decide) (by decide) (by decide)⟩
